import Mathlib

/-!
Verification development for the defont repository.

The definitions below are a shallow embedding of the font-building core in
tools/generate-fonts.py (glyph filtering, palette generation, color layer
emission, metrics), of compress_to_ranges in tools/generate-manifest.py and of
the glyph-data normalization in tools/generate-data.py.  Machine integers are
modelled as Nat/Int (Python integers are unbounded, so no wrap-around is
needed); Python dict values are insertion-ordered association lists.
-/

namespace Defont

/-- ROWS = 9, the fixed bitmap row count (tools/generate-fonts.py line 43). -/
def ROWS : Nat := 9

/-- The Metrics dataclass of tools/generate-fonts.py (lines 46-55). -/
structure Metrics where
  upm : Nat
  ascent : Nat
  descent : Int
  cell : Nat
  left_pad_cells : Nat
  right_pad_cells : Nat
  letterspacing_cells : Nat
deriving DecidableEq, Repr

/-- The default Metrics() values used by main(). -/
def defaultMetrics : Metrics :=
  { upm := 1000, ascent := 900, descent := -100, cell := 90,
    left_pad_cells := 1, right_pad_cells := 1, letterspacing_cells := 0 }

/-- An axis-aligned rectangle contour (x0, y0, x1, y1) in design units, as
emitted by rect_to_pen.  Coordinates are Int, like Python integers. -/
structure Rect where
  x0 : Int
  y0 : Int
  x1 : Int
  y1 : Int
deriving DecidableEq, Repr

/-- An RGBA entry, components 0..255 as produced by de_jade. -/
abbrev RGBA := Nat × Nat × Nat × Nat

/-- Model of Python's random.Random: the stdlib PRNG is external to this
repository, so it is modelled by its interface contract: a deterministic
stream of naturals fixed by the seed, consumed one draw per primitive call.
randint lo hi returns a value in [lo, hi]; randbelow n returns a value
below n; shuffle is the Fisher-Yates loop CPython runs.  Every theorem
below depends only on these contract properties (determinism, ranges,
one fixed consumption order), not on the Mersenne-Twister bit stream. -/
structure RNG where
  stream : Nat → Nat
  pos : Nat

/-- rng.randint(lo, hi): one draw, result in [lo, hi] (for lo ≤ hi). -/
def RNG.randint (r : RNG) (lo hi : Nat) : Nat × RNG :=
  (lo + r.stream r.pos % (hi - lo + 1), ⟨r.stream, r.pos + 1⟩)

/-- random._randbelow(n): one draw, result below n (for 0 < n). -/
def RNG.randbelow (r : RNG) (n : Nat) : Nat × RNG :=
  (r.stream r.pos % n, ⟨r.stream, r.pos + 1⟩)

/-- de_jade (tools/generate-fonts.py lines 185-195): r in [0,127],
g in [127,255], b in [0,191], fixed alpha 128. -/
def de_jade (r : RNG) : RGBA × RNG :=
  let p1 := r.randint 0 127
  let p2 := p1.2.randint 127 255
  let p3 := p2.2.randint 0 191
  ((p1.1, p2.1, p3.1, 128), p3.2)

/-- `[de_jade(rng) for _ in range(size)]` (line 252), draws in list order. -/
def drawPalette (r : RNG) : Nat → List RGBA × RNG
  | 0 => ([], r)
  | n + 1 =>
    let c := de_jade r
    let rest := drawPalette c.2 n
    (c.1 :: rest.1, rest.2)

/-- Swap the elements at positions i and j of a list (in-bounds positions;
out-of-bounds set is the identity, matching that shuffle only uses valid
indices). -/
def listSwap [Inhabited α] (l : List α) (i j : Nat) : List α :=
  (l.set i (l.getD j default)).set j (l.getD i default)

/-- The CPython random.shuffle loop: for i = n, n-1, ..., 1 swap x[i] with
x[j] for j = randbelow(i+1).  The counter argument is the current index i. -/
def shuffleLoop [Inhabited α] (r : RNG) (l : List α) : Nat → List α × RNG
  | 0 => (l, r)
  | i + 1 =>
    let p := r.randbelow (i + 2)
    shuffleLoop p.2 (listSwap l (i + 1) p.1) i

/-- rng.shuffle(x) (line 258). -/
def pyShuffle [Inhabited α] (r : RNG) (l : List α) : List α × RNG :=
  shuffleLoop r l (l.length - 1)

instance : Inhabited RGBA := ⟨(0, 0, 0, 0)⟩

/-- The October accent color (255, 68, 136, 128) of line 257. -/
def octoberAccent : RGBA := (255, 68, 136, 128)

/-- Palette construction of build_font lines 252-258: size de_jade draws,
then, when the build month is October and the palette is non-empty,
entry 0 is overwritten with the accent color and the palette is shuffled
with the same stream.  The source reads the month from datetime.now();
that wall-clock read is the explicit `month` input here. -/
def makePalette (stream : Nat → Nat) (size : Nat) (month : Nat) : List RGBA × RNG :=
  let d := drawPalette ⟨stream, 0⟩ size
  if month = 10 ∧ d.1 ≠ [] then
    pyShuffle d.2 (d.1.set 0 octoberAccent)
  else d

/-- The palette list produced by makePalette. -/
def palOf (stream : Nat → Nat) (size : Nat) (month : Nat) : List RGBA :=
  (makePalette stream size month).1

/-- The raw (pre-seasonal-rule) palette draws. -/
def rawPalette (stream : Nat → Nat) (size : Nat) : List RGBA :=
  (drawPalette ⟨stream, 0⟩ size).1

/-- Uppercase hex digit, as used by Python's %X formatting. -/
def hexDigitChar (n : Nat) : Char :=
  if n = 0 then '0' else if n = 1 then '1' else if n = 2 then '2'
  else if n = 3 then '3' else if n = 4 then '4' else if n = 5 then '5'
  else if n = 6 then '6' else if n = 7 then '7' else if n = 8 then '8'
  else if n = 9 then '9' else if n = 10 then 'A' else if n = 11 then 'B'
  else if n = 12 then 'C' else if n = 13 then 'D' else if n = 14 then 'E'
  else 'F'

/-- f"{cp:04X}" for cp ≤ 0xFFFF (the only domain the source applies it to):
the four nibbles, most significant first. -/
def hex4 (cp : Nat) : List Char :=
  [hexDigitChar (cp / 4096 % 16), hexDigitChar (cp / 256 % 16),
   hexDigitChar (cp / 16 % 16), hexDigitChar (cp % 16)]

/-- f"{cp:06X}" for cp < 16^6 (covers every Unicode codepoint, the domain
the source applies it to): six nibbles, most significant first. -/
def hex6 (cp : Nat) : List Char :=
  hexDigitChar (cp / 1048576 % 16) :: hexDigitChar (cp / 65536 % 16) :: hex4 cp

/-- glyph_name_for_codepoint (tools/generate-fonts.py lines 177-182). -/
def glyphName (cp : Nat) : String :=
  if cp = 32 then "space"
  else if cp ≤ 0xFFFF then String.mk ('u' :: 'n' :: 'i' :: hex4 cp)
  else String.mk ('u' :: hex6 cp)

/-- Layer glyph name f"{gname}.p{next_palette_index}" (line 351). -/
def layerName (gname : String) (idx : Nat) : String :=
  gname ++ ".p" ++ toString idx

/-- round(num / den) with ties to even, the rounding Python's round() uses.
The source computes `int(round(metrics.cell * (j / 24.0)))` in double
precision; double rounding agrees with exact rational rounding except at
exact halves whose double approximation falls below the tie (for the
default cell = 90 only j = 2 is such a tie).  No theorem below depends on
the value at a tie point. -/
def pyRound (num den : Nat) : Nat :=
  let q := num / den
  let r := num % den
  if 2 * r < den then q
  else if den < 2 * r then q + 1
  else if q % 2 = 0 then q else q + 1

/-- The jitter-derived extra size, `int(round(cell * (j / 24.0)))` (line 338). -/
def jitterExtra (cell j : Nat) : Nat :=
  pyRound (cell * j) 24

/-- CoordinateMapper (build_font lines 320-345): the rectangle emitted for the
"on" pixel at (row, col) when the jitter draw produced `extra`:
x = (left_pad + col) * cell, y_top = (ROWS - row) * cell,
w = h = cell + extra, x0 = x, x1 = x + w, y1 = y_top, y0 = y_top - h. -/
def pixelRect (m : Metrics) (row col extra : Nat) : Rect :=
  { x0 := ((m.left_pad_cells : Int) + col) * m.cell
    y0 := ((ROWS : Int) - row) * m.cell - ((m.cell : Int) + extra)
    x1 := ((m.left_pad_cells : Int) + col) * m.cell + ((m.cell : Int) + extra)
    y1 := ((ROWS : Int) - row) * m.cell }

/-- `len(pixels) == 0 or len(pixels) % ROWS == 0` (build_font lines 238-241). -/
def validPixels (p : List Nat) : Bool :=
  p.length = 0 || p.length % ROWS = 0

/-- The `filtered` dict of build_font lines 234-244: entries whose pixel
array is empty or of length divisible by ROWS; others are skipped. -/
def filterChars (chars : List (Nat × List Nat)) : List (Nat × List Nat) :=
  chars.filter (fun e => validPixels e.2)

/-- `total_ones = sum(sum(p) for p in filtered.values())` (line 247). -/
def totalOnes (chars : List (Nat × List Nat)) : Nat :=
  ((filterChars chars).map (fun e => e.2.sum)).sum

/-- Column count: 0 for an empty pixel array, else len // ROWS (lines 297-300). -/
def colsOf (p : List Nat) : Nat :=
  if p.length = 0 then 0 else p.length / ROWS

/-- Advance width (lines 302-304): (left_pad + cols + right_pad +
letterspacing) * cell, replaced by 2 * cell when not positive. -/
def awOf (m : Metrics) (cols : Nat) : Nat :=
  let aw := (m.left_pad_cells + cols + m.right_pad_cells + m.letterspacing_cells) * m.cell
  if aw = 0 then 2 * m.cell else aw

/-- Number of pixels with value exactly 1 (the `bit != 1: continue` test). -/
def countOnes (p : List Nat) : Nat :=
  (p.filter (fun b => b = 1)).length

/-- The mutable state threaded through the glyph loop of build_font.
The Python dicts (glyphs, advance_widths, left_side_bearings, color_layers)
are modelled as insertion-ordered association lists extended by appending:
every dict assignment in the loop uses a key not previously assigned
(codepoint glyph names are injective in the codepoint, and each layer name
embeds the strictly increasing palette counter), so insertion never
overwrites.  glyph_order is a genuine Python list in the source and is
modelled as such, including its `not in` membership guard. -/
structure BState where
  rng : RNG
  nextIdx : Nat
  paletteSize : Nat
  glyphOrder : List String
  glyphs : List (String × List Rect)
  advanceWidths : List (String × Nat)
  lsbs : List (String × Int)
  colorLayers : List (String × List (String × Nat))

/-- The jitter draw of build_font lines 337-340: when jitter_px_max > 0
draw j = randint(0, jitter_px_max) and return the scaled extra size,
else no extra and an untouched stream. -/
def jitterDraw (m : Metrics) (jmax : Nat) (r : RNG) : Nat × RNG :=
  if 0 < jmax then
    let p := r.randint 0 jmax
    (jitterExtra m.cell p.1, p.2)
  else (0, r)

/-- The state effect of visiting one "on" pixel at linear index i (build_font
lines 320-368): draw jitter, create the layer glyph with one rectangle,
record its advance width (the base glyph's), a zero left side bearing and
its palette index, then bump the palette counter, clamping at
palette_size - 1. -/
def pixStep (m : Metrics) (jmax : Nat) (gname : String) (aw cols : Nat)
    (st : BState) (i : Nat) : BState :=
  let drawn := jitterDraw m jmax st.rng
  let rect := pixelRect m (i / cols) (i % cols) drawn.1
  let lname := layerName gname st.nextIdx
  let bumped := st.nextIdx + 1
  { rng := drawn.2
    nextIdx := if st.paletteSize ≤ bumped then st.paletteSize - 1 else bumped
    paletteSize := st.paletteSize
    glyphOrder := st.glyphOrder ++ [lname]
    glyphs := st.glyphs ++ [(lname, [rect])]
    advanceWidths := st.advanceWidths ++ [(lname, aw)]
    lsbs := st.lsbs ++ [(lname, 0)]
    colorLayers := st.colorLayers }

/-- The per-pixel loop (build_font lines 316-368) over the enumerated pixels
(i, bit): skip unless bit == 1; otherwise apply pixStep, append the
rectangle to the base outline and the (layer name, palette index) pair to
the glyph's layer list. -/
def pixLoop (m : Metrics) (jmax : Nat) (gname : String) (aw cols : Nat) :
    BState → List Rect → List (String × Nat) → List (Nat × Nat) →
    BState × List Rect × List (String × Nat)
  | st, baseRects, layers, [] => (st, baseRects, layers)
  | st, baseRects, layers, (i, bit) :: rest =>
    if bit ≠ 1 then pixLoop m jmax gname aw cols st baseRects layers rest
    else
      pixLoop m jmax gname aw cols (pixStep m jmax gname aw cols st i)
        (baseRects ++ [pixelRect m (i / cols) (i % cols) (jitterDraw m jmax st.rng).1])
        (layers ++ [(layerName gname st.nextIdx, st.nextIdx)]) rest

/-- The start of one glyph iteration for cp != 32 (build_font lines 292-312):
append the glyph name to the glyph order unless already present, and record
its advance width and zero left side bearing.  One iteration of
`for cp in sorted(filtered.keys())` is glyphStep below: skip cp 32,
else glyphPrep, then the pixel loop when cols > 0, then glyphFinish. -/
def glyphPrep (m : Metrics) (st : BState) (cp : Nat) (pix : List Nat) : BState :=
  { st with
    glyphOrder := if glyphName cp ∈ st.glyphOrder then st.glyphOrder
      else st.glyphOrder ++ [glyphName cp]
    advanceWidths := st.advanceWidths ++ [(glyphName cp, awOf m (colsOf pix))]
    lsbs := st.lsbs ++ [(glyphName cp, 0)] }

/-- The end of one glyph iteration (build_font lines 370-372): store the base
outline under the glyph's name and record the layer list when non-empty. -/
def glyphFinish (gname : String)
    (looped : BState × List Rect × List (String × Nat)) : BState :=
  let st3 : BState := { looped.1 with glyphs := looped.1.glyphs ++ [(gname, looped.2.1)] }
  if looped.2.2 = [] then st3
  else { st3 with colorLayers := st3.colorLayers ++ [(gname, looped.2.2)] }

def glyphStep (m : Metrics) (jmax : Nat) (st : BState) (e : Nat × List Nat) : BState :=
  if e.1 = 32 then st
  else
    glyphFinish (glyphName e.1)
      (if 0 < colsOf e.2 then
        pixLoop m jmax (glyphName e.1) (awOf m (colsOf e.2)) (colsOf e.2)
          (glyphPrep m st e.1 e.2) [] [] e.2.enum
      else (glyphPrep m st e.1 e.2, [], []))

/-- The result of build_font handed to the FontContainer. -/
structure BuildResult where
  palette : List RGBA
  glyphOrder : List String
  glyphs : List (String × List Rect)
  advanceWidths : List (String × Nat)
  leftSideBearings : List (String × Int)
  colorLayers : List (String × List (String × Nat))
  cmap : List (Nat × String)

/-- The initial build state (build_font lines 260-283): palette counter 0,
glyph order seeded with .notdef and space, the visible .notdef box with
advance width upm, the empty space glyph with advance width 2 * cell, zero
left side bearings, the RNG continuing after the palette draws. -/
def buildState0 (m : Metrics) (stream : Nat → Nat) (month : Nat)
    (chars : List (Nat × List Nat)) : BState :=
  { rng := (makePalette stream (totalOnes chars + 1) month).2
    nextIdx := 0
    paletteSize := totalOnes chars + 1
    glyphOrder := [".notdef", "space"]
    glyphs := [(".notdef", [⟨80, 80, 920, 920⟩]), ("space", [])]
    advanceWidths := [(".notdef", m.upm), ("space", 2 * m.cell)]
    lsbs := [(".notdef", 0), ("space", 0)]
    colorLayers := [] }

/-- `sorted(filtered.keys())` iteration order: the filtered entries in
ascending codepoint order (Python dict keys are unique, so sorting the
filtered association list by key is the sorted-keys traversal). -/
def sortedFiltered (chars : List (Nat × List Nat)) : List (Nat × List Nat) :=
  List.insertionSort (fun a b => a.1 ≤ b.1) (filterChars chars)

/-- The glyph loop of build_font (lines 286-372). -/
def buildFold (m : Metrics) (jmax : Nat) (stream : Nat → Nat) (month : Nat)
    (chars : List (Nat × List Nat)) : BState :=
  (sortedFiltered chars).foldl (glyphStep m jmax) (buildState0 m stream month chars)

/-- build_font (tools/generate-fonts.py lines 218-392), up to the hand-off to
the external FontContainer (fontTools): filter the glyph table, size the
palette as total_ones + 1, generate the palette (October rule included,
month being the datetime.now() read as an explicit input), seed the state
with the .notdef and space glyphs, process the filtered glyphs in ascending
codepoint order, and build the character map over the filtered codepoints. -/
def buildFont (m : Metrics) (jmax : Nat) (stream : Nat → Nat) (month : Nat)
    (chars : List (Nat × List Nat)) : BuildResult :=
  { palette := (makePalette stream (totalOnes chars + 1) month).1
    glyphOrder := (buildFold m jmax stream month chars).glyphOrder
    glyphs := (buildFold m jmax stream month chars).glyphs
    advanceWidths := (buildFold m jmax stream month chars).advanceWidths
    leftSideBearings := (buildFold m jmax stream month chars).lsbs
    colorLayers := (buildFold m jmax stream month chars).colorLayers
    cmap := (sortedFiltered chars).map
      (fun e => (e.1, if e.1 = 32 then "space" else glyphName e.1)) }

/-- The layer list recorded for a base glyph (empty when absent). -/
def layersOf (r : BuildResult) (g : String) : List (String × Nat) :=
  ((r.colorLayers.find? (fun e => e.1 = g)).map (fun e => e.2)).getD []

/-- Minimum X coordinate of an outline's bounding box, 0 for an empty
outline (each contour's minimum X is its x0 corner). -/
def bboxXMin : List Rect → Int
  | [] => 0
  | r :: rs => (rs.map (fun q => q.x0)).foldl min r.x0

/-- The loop of compress_to_ranges (tools/generate-manifest.py lines 79-85):
walking the remaining sorted distinct codepoints with the current run held
in (start, prev); a gap closes the run. -/
def compressLoop (start prev : Nat) : List Nat → List (Nat × Nat)
  | [] => [(start, prev)]
  | cp :: rest =>
    if cp = prev + 1 then compressLoop start cp rest
    else (start, prev) :: compressLoop cp cp rest

/-- compress_to_ranges (tools/generate-manifest.py lines 72-87).
Python's sorted(set(codepoints)) is modelled as insertionSort of dedup:
both are the unique sorted duplicate-free enumeration of the input. -/
def compress_to_ranges (codepoints : List Nat) : List (Nat × Nat) :=
  if codepoints = [] then []
  else
    match codepoints.dedup.insertionSort (· ≤ ·) with
    | [] => []
    | c :: rest => compressLoop c c rest

/-- Membership of a codepoint in a list of inclusive ranges. -/
def inRanges (n : Nat) (rs : List (Nat × Nat)) : Prop :=
  ∃ r ∈ rs, r.1 ≤ n ∧ n ≤ r.2

/-- The preferred heights of infer_dimensions (tools/generate-data.py
line 90). -/
def preferredHeights : List Nat := [9, 7, 5, 3]

/-- The preferred-heights pass of infer_dimensions (lines 91-95): the first
preferred height dividing n whose width lands in [1, 64]. -/
def tryPreferred (n : Nat) : Option (Nat × Nat) :=
  (preferredHeights.find? (fun h => n % h = 0 && 1 ≤ n / h && n / h ≤ 64)).map
    (fun h => (n / h, h))

/-- One step of the fallback loop of infer_dimensions (lines 98-107): keep
the factor pair (w, h) = (n / h, h) closest to square, first minimizer wins.
State is some ((w, h), score) once any divisor has been seen. -/
def fallbackStep (n : Nat) (best : Option ((Nat × Nat) × Nat)) (h : Nat) :
    Option ((Nat × Nat) × Nat) :=
  if n % h ≠ 0 then best
  else
    let w := n / h
    let score := ((w : Int) - h).natAbs
    match best with
    | none => some ((w, h), score)
    | some (p, bs) => if score < bs then some ((w, h), score) else some (p, bs)

/-- infer_dimensions (tools/generate-data.py lines 78-112): (None, None) for
an empty list, else the preferred-heights pass, else the closest-to-square
factor pair from the fallback loop over h in range(1, n + 1). -/
def infer_dimensions (values : List Nat) : Option Nat × Option Nat :=
  let n := values.length
  if n = 0 then (none, none)
  else
    match tryPreferred n with
    | some wh => (some wh.1, some wh.2)
    | none =>
      match (List.range' 1 n).foldl (fallbackStep n) none with
      | none => (none, none)
      | some (wh, _) => (some wh.1, some wh.2)

/-- reshape_rows (tools/generate-data.py lines 115-123): empty rows for an
empty list or missing dimensions; a ValueError (modelled as Except.error)
when width * height does not match the length; else the row slices
values[r*width:(r+1)*width]. -/
def reshape_rows (values : List Nat) (width height : Option Nat) :
    Except String (List (List Nat)) :=
  match values, width, height with
  | [], _, _ => Except.ok []
  | _, none, _ => Except.ok []
  | _, _, none => Except.ok []
  | vs, some w, some h =>
    if w * h ≠ vs.length then
      Except.error "Dimension mismatch"
    else
      Except.ok ((List.range h).map (fun r => ((vs.drop (r * w)).take w)))

/-- compute_bbox (tools/generate-data.py lines 126-147): the (x, y, width,
height) of the tight box around the truthy pixels, none when there are
none. -/
def compute_bbox (rows : List (List Nat)) : Option (Nat × Nat × Nat × Nat) :=
  let pts :=
    (rows.enum.map (fun yr =>
      yr.2.enum.filterMap (fun xv =>
        if xv.2 ≠ 0 then some (xv.1, yr.1) else none))).flatten
  match pts with
  | [] => none
  | p :: ps =>
    let xs := p.1 :: ps.map (fun q => q.1)
    let ys := p.2 :: ps.map (fun q => q.2)
    some (xs.foldl min p.1, ys.foldl min p.2,
      xs.foldl max p.1 - xs.foldl min p.1 + 1,
      ys.foldl max p.2 - ys.foldl min p.2 + 1)

/-- The glyph entry built by normalize_glyph, restricted to the fields
derived from the pixel values (the key/codepoint/unicode/char presentation
fields do not interact with any claim). -/
structure GlyphEntry where
  width : Option Nat
  height : Option Nat
  data : List Nat
  rows : List (List Nat)
  active_pixels : Nat
  bbox : Option (Nat × Nat × Nat × Nat)
deriving DecidableEq, Repr

/-- normalize_glyph (tools/generate-data.py lines 150-176): infer the
dimensions, reshape (propagating the ValueError, were one raised), and
assemble the entry. -/
def normalize_glyph (values : List Nat) : Except String GlyphEntry :=
  let wh := infer_dimensions values
  match reshape_rows values wh.1 wh.2 with
  | Except.error e => Except.error e
  | Except.ok rows =>
    Except.ok
      { width := wh.1, height := wh.2, data := values, rows := rows,
        active_pixels := (values.filter (fun v => v ≠ 0)).length,
        bbox := compute_bbox rows }

/-! ### Concrete inputs used by the closed theorems below -/

/-- A constant RNG stream (one concrete seeded stream). -/
def cStream : Nat → Nat := fun _ => 0

/-- A 9-pixel one-column glyph with a single "on" pixel at linear index 0. -/
def pix9 : List Nat := [1, 0, 0, 0, 0, 0, 0, 0, 0]

/-- An invalid pixel array: non-empty, length 10 not divisible by ROWS = 9. -/
def badPix : List Nat := [1, 1, 1, 1, 1, 1, 1, 1, 1, 1]

/-- Two-glyph table: codepoints 64 and 65, one "on" pixel each. -/
def tblA : List (Nat × List Nat) := [(64, pix9), (65, pix9)]

/-- Two-glyph table: codepoints 65 and 66, one "on" pixel each. -/
def tblB : List (Nat × List Nat) := [(65, pix9), (66, pix9)]

/-- The number of "on" pixels of a glyph that receive a palette index and a
layer during the build: 0 for the skipped codepoint 32 and for a glyph with
no columns, else its count of 1-pixels. -/
def perGlyphAssigned (e : Nat × List Nat) : Nat :=
  if e.1 = 32 then 0 else if colsOf e.2 = 0 then 0 else countOnes e.2

/-- Total number of "on" pixels assigned a palette index across one build. -/
def assignedCount (chars : List (Nat × List Nat)) : Nat :=
  ((filterChars chars).map perGlyphAssigned).sum

/-- Count of "on" entries among enumerated (index, bit) pixel pairs. -/
def onesEnum (pl : List (Nat × Nat)) : Nat :=
  pl.countP (fun e => e.2 = 1)

/-! ### Palette lemmas -/

/-- The range predicate of one de_jade draw: r in [0,127], g in [127,255],
b in [0,191], alpha exactly 128. -/
def jadeRange (c : RGBA) : Prop :=
  c.1 ≤ 127 ∧ 127 ≤ c.2.1 ∧ c.2.1 ≤ 255 ∧ c.2.2.1 ≤ 191 ∧ c.2.2.2 = 128

lemma de_jade_range (r : RNG) : jadeRange (de_jade r).1 := by
  refine ⟨?_, ?_, ?_, ?_, rfl⟩ <;> simp [de_jade, RNG.randint] <;> omega

lemma drawPalette_length (r : RNG) (n : Nat) : (drawPalette r n).1.length = n := by
  induction n generalizing r with
  | zero => rfl
  | succ k ih => simp [drawPalette, ih]

lemma drawPalette_range (r : RNG) (n : Nat) :
    ∀ c ∈ (drawPalette r n).1, jadeRange c := by
  induction n generalizing r with
  | zero => intro c hc; simp [drawPalette] at hc
  | succ k ih =>
    intro c hc
    simp only [drawPalette, List.mem_cons] at hc
    rcases hc with h | h
    · exact h ▸ de_jade_range r
    · exact ih _ c h

lemma listSwap_length [Inhabited α] (l : List α) (i j : Nat) :
    (listSwap l i j).length = l.length := by
  simp [listSwap]

lemma shuffleLoop_length [Inhabited α] (k : Nat) :
    ∀ (r : RNG) (l : List α), ((shuffleLoop r l k).1).length = l.length := by
  induction k with
  | zero => intro r l; rfl
  | succ i ih => intro r l; simp [shuffleLoop, ih, listSwap_length]

lemma pyShuffle_length [Inhabited α] (r : RNG) (l : List α) :
    ((pyShuffle r l).1).length = l.length := by
  simp [pyShuffle, shuffleLoop_length]

lemma rawPalette_length (stream : Nat → Nat) (size : Nat) :
    (rawPalette stream size).length = size := by
  simp [rawPalette, drawPalette_length]

lemma palOf_length (stream : Nat → Nat) (size month : Nat) :
    (palOf stream size month).length = size := by
  by_cases h : month = 10 ∧ (drawPalette ⟨stream, 0⟩ size).1 ≠ []
  · simp [palOf, makePalette, h, pyShuffle_length, drawPalette_length]
  · simp only [palOf, makePalette]
    rw [if_neg h]
    simp [drawPalette_length]

/-- C6: palette generation (and the whole build) is deterministic: two runs
with the same seed stream, the same size and the same injected current
month produce identical palettes (and identical build results); the seeded
stream and the month are the only inputs the generator reads. -/
theorem c6_palette_deterministic :
    ∀ (f g : Nat → Nat) (size month : Nat) (m : Metrics) (jmax : Nat)
      (chars : List (Nat × List Nat)),
    (∀ n, f n = g n) →
    makePalette f size month = makePalette g size month ∧
      buildFont m jmax f month chars = buildFont m jmax g month chars := by
  intro f g size month m jmax chars h
  have hfg : f = g := funext h
  subst hfg
  exact ⟨rfl, rfl⟩

/-- Witness for c6_palette_deterministic at a concrete stream, size, month,
metrics and table. -/
theorem c6_palette_deterministic_witness :
    makePalette cStream 2 10 = makePalette cStream 2 10 ∧
      buildFont defaultMetrics 0 cStream 10 [(65, pix9)] =
        buildFont defaultMetrics 0 cStream 10 [(65, pix9)] :=
  c6_palette_deterministic cStream cStream 2 10 defaultMetrics 0 [(65, pix9)]
    (fun _ => rfl)

/-- C7: the generated palette has the requested size; every drawn entry has
r in [0,127], g in [127,255], b in [0,191] and fixed alpha 128, all coming
from the one stream seeded from the build seed; outside October (or for an
empty palette) the palette is exactly the drawn entries, and in October
entry 0 is overwritten with the fixed accent color and the whole palette is
then reshuffled with the same stream. -/
theorem c7_palette_ranges_and_october :
    ∀ (stream : Nat → Nat) (size month : Nat),
    (rawPalette stream size).length = size ∧
    (∀ c ∈ rawPalette stream size, jadeRange c) ∧
    (palOf stream size month).length = size ∧
    (¬(month = 10 ∧ 0 < size) → palOf stream size month = rawPalette stream size) ∧
    (month = 10 → 0 < size →
      palOf stream size month =
        (pyShuffle (drawPalette ⟨stream, 0⟩ size).2
          ((rawPalette stream size).set 0 octoberAccent)).1) := by
  intro stream size month
  have hne : (drawPalette ⟨stream, 0⟩ size).1 ≠ [] ↔ 0 < size := by
    rw [← List.length_pos_iff_ne_nil, drawPalette_length]
  refine ⟨rawPalette_length stream size, drawPalette_range _ size,
    palOf_length stream size month, ?_, ?_⟩
  · intro h
    have : ¬(month = 10 ∧ (drawPalette ⟨stream, 0⟩ size).1 ≠ []) := by
      intro hc; exact h ⟨hc.1, hne.mp hc.2⟩
    simp only [palOf, makePalette, rawPalette]
    rw [if_neg this]
  · intro h10 hsz
    have : month = 10 ∧ (drawPalette ⟨stream, 0⟩ size).1 ≠ [] := ⟨h10, hne.mpr hsz⟩
    simp only [palOf, makePalette, rawPalette]
    rw [if_pos this]

/-- Witness for c7_palette_ranges_and_october: the non-October palette of
size 2 equals the raw draws, and the October palette of size 2 is the
accent-overridden reshuffle. -/
theorem c7_palette_ranges_and_october_witness :
    palOf cStream 2 7 = rawPalette cStream 2 ∧
      palOf cStream 2 10 =
        (pyShuffle (drawPalette ⟨cStream, 0⟩ 2).2
          ((rawPalette cStream 2).set 0 octoberAccent)).1 :=
  ⟨(c7_palette_ranges_and_october cStream 2 7).2.2.2.1 (by simp),
   (c7_palette_ranges_and_october cStream 2 10).2.2.2.2 rfl (by norm_num)⟩

/-! ### compress_to_ranges lemmas -/

lemma compressLoop_head :
    ∀ (rest : List Nat) (start prev : Nat),
    ∃ e tl, compressLoop start prev rest = (start, e) :: tl := by
  intro rest
  induction rest with
  | nil => intro start prev; exact ⟨prev, [], rfl⟩
  | cons cp rest ih =>
    intro start prev
    by_cases h : cp = prev + 1
    · simpa [compressLoop, h] using ih start cp
    · exact ⟨prev, compressLoop cp cp rest, by simp [compressLoop, h]⟩

lemma compressLoop_spec :
    ∀ (rest : List Nat) (start prev : Nat),
    start ≤ prev → List.Chain' (· < ·) (prev :: rest) →
    (compressLoop start prev rest).Chain' (fun a b => a.2 + 1 < b.1) ∧
    (∀ r ∈ compressLoop start prev rest, start ≤ r.1 ∧ r.1 ≤ r.2) ∧
    (∀ n, inRanges n (compressLoop start prev rest) ↔
      (start ≤ n ∧ n ≤ prev) ∨ n ∈ rest) := by
  intro rest
  induction rest with
  | nil =>
    intro start prev hsp _
    refine ⟨List.chain'_singleton _, ?_, ?_⟩
    · intro r hr
      simp only [compressLoop, List.mem_singleton] at hr
      subst hr; exact ⟨le_refl _, hsp⟩
    · intro n
      simp [compressLoop, inRanges]
  | cons cp rest ih =>
    intro start prev hsp hch
    rw [List.chain'_cons] at hch
    obtain ⟨hlt, hch'⟩ := hch
    by_cases h : cp = prev + 1
    · subst h
      have hspec := ih start (prev + 1) (by omega) hch'
      have hloop : compressLoop start prev ((prev + 1) :: rest) =
          compressLoop start (prev + 1) rest := by
        simp [compressLoop]
      rw [hloop]
      refine ⟨hspec.1, hspec.2.1, ?_⟩
      intro n
      rw [hspec.2.2 n, List.mem_cons]
      -- the codepoint sets [start, prev+1] and [start, prev] ∪ {prev+1} agree
      constructor
      · rintro (⟨h1, h2⟩ | hr)
        · rcases Nat.lt_or_ge n (prev + 1) with hlt' | hge
          · exact Or.inl ⟨h1, by omega⟩
          · exact Or.inr (Or.inl (by omega))
        · exact Or.inr (Or.inr hr)
      · rintro (⟨h1, h2⟩ | he | hr)
        · exact Or.inl ⟨h1, by omega⟩
        · exact Or.inl ⟨by omega, by omega⟩
        · exact Or.inr hr
    · have hpc : prev + 1 < cp := by omega
      have := ih cp cp (le_refl _) hch'
      have hloop : compressLoop start prev (cp :: rest) =
          (start, prev) :: compressLoop cp cp rest := by
        simp [compressLoop, h]
      refine ⟨?_, ?_, ?_⟩
      · rw [hloop, List.chain'_cons']
        refine ⟨?_, this.1⟩
        intro b hb
        obtain ⟨e, tl, heq⟩ := compressLoop_head rest cp cp
        rw [heq] at hb
        simp only [List.head?_cons, Option.mem_def, Option.some.injEq] at hb
        subst hb
        simpa using hpc
      · intro r hr
        rw [hloop, List.mem_cons] at hr
        rcases hr with hr | hr
        · subst hr; exact ⟨le_refl _, hsp⟩
        · have := this.2.1 r hr
          omega
      · intro n
        rw [hloop]
        have hiff := this.2.2 n
        simp only [inRanges, List.mem_cons] at hiff ⊢
        constructor
        · rintro ⟨r, hr | hr, hn⟩
          · subst hr; exact Or.inl hn
          · rcases hiff.mp ⟨r, hr, hn⟩ with ⟨h1, h2⟩ | hr'
            · exact Or.inr (Or.inl (by omega))
            · exact Or.inr (Or.inr hr')
        · rintro (hn | hn | hn)
          · exact ⟨(start, prev), Or.inl rfl, hn⟩
          · obtain ⟨r, hr, hnr⟩ := hiff.mpr (Or.inl (by omega))
            exact ⟨r, Or.inr hr, hnr⟩
          · obtain ⟨r, hr, hnr⟩ := hiff.mpr (Or.inr hn)
            exact ⟨r, Or.inr hr, hnr⟩

lemma sorted_dedup_chain (l : List Nat) (h : l ≠ []) :
    ∃ c rest, List.insertionSort (· ≤ ·) l.dedup = c :: rest ∧
      List.Chain' (· < ·) (c :: rest) ∧
      ∀ n, n ∈ c :: rest ↔ n ∈ l := by
  have hperm : List.Perm (List.insertionSort (· ≤ ·) l.dedup) l.dedup :=
    List.perm_insertionSort _ _
  have hnodup : (List.insertionSort (· ≤ ·) l.dedup).Nodup :=
    hperm.nodup_iff.mpr l.nodup_dedup
  have hsorted : (List.insertionSort (· ≤ ·) l.dedup).Sorted (· ≤ ·) :=
    List.sorted_insertionSort _ _
  have hlt : (List.insertionSort (· ≤ ·) l.dedup).Pairwise (· < ·) := by
    have hand := List.Pairwise.and hsorted hnodup
    exact hand.imp (fun hab => lt_of_le_of_ne hab.1 hab.2)
  have hne : List.insertionSort (· ≤ ·) l.dedup ≠ [] := by
    intro hnil
    have hd : l.dedup = [] := by
      have hlen := hperm.length_eq
      rw [hnil] at hlen
      exact List.length_eq_zero.mp hlen.symm
    exact h ((List.dedup_eq_nil l).mp hd)
  obtain ⟨c, rest, heq⟩ := List.exists_cons_of_ne_nil hne
  refine ⟨c, rest, heq, ?_, ?_⟩
  · rw [← heq]; exact hlt.chain'
  · intro n
    rw [← heq, hperm.mem_iff, List.mem_dedup]

/-- C9: compress_to_ranges turns any codepoint list into inclusive [start,
end] ranges that are sorted ascending, pairwise disjoint and non-adjacent
(consecutive ranges are separated by a gap of at least one codepoint, so
each maximal run becomes exactly one range), each range is well-formed, the
union of the ranges is exactly the set of distinct input codepoints, and the
empty input yields the empty list. -/
theorem c9_compress_ranges_correct :
    ∀ l : List Nat,
    (compress_to_ranges l).Chain' (fun a b => a.2 + 1 < b.1) ∧
    (∀ r ∈ compress_to_ranges l, r.1 ≤ r.2) ∧
    (∀ n, inRanges n (compress_to_ranges l) ↔ n ∈ l) ∧
    (l = [] → compress_to_ranges l = []) := by
  intro l
  by_cases hnil : l = []
  · subst hnil
    refine ⟨List.chain'_nil, ?_, ?_, fun _ => rfl⟩
    · intro r hr; simp [compress_to_ranges] at hr
    · intro n; simp [compress_to_ranges, inRanges]
  · obtain ⟨c, rest, heq, hch, hmem⟩ := sorted_dedup_chain l hnil
    have hcomp : compress_to_ranges l = compressLoop c c rest := by
      simp only [compress_to_ranges, if_neg hnil, heq]
    have hspec := compressLoop_spec rest c c (le_refl _) hch
    refine ⟨hcomp ▸ hspec.1, ?_, ?_, fun he => absurd he hnil⟩
    · intro r hr
      exact (hspec.2.1 r (hcomp ▸ hr)).2
    · intro n
      rw [hcomp, hspec.2.2 n, ← hmem n, List.mem_cons]
      constructor
      · rintro (⟨h1, h2⟩ | hr)
        · exact Or.inl (le_antisymm h2 h1)
        · exact Or.inr hr
      · rintro (he | hr)
        · subst he; exact Or.inl ⟨le_refl n, le_refl n⟩
        · exact Or.inr hr

/-- Witness for c9_compress_ranges_correct: codepoint 6 of the list
[5, 6, 9] is covered by its compressed ranges, and the empty list
compresses to the empty range list. -/
theorem c9_compress_ranges_correct_witness :
    inRanges 6 (compress_to_ranges [5, 6, 9]) ∧ compress_to_ranges [] = [] :=
  ⟨((c9_compress_ranges_correct [5, 6, 9]).2.2.1 6).mpr (by decide),
   (c9_compress_ranges_correct []).2.2.2 rfl⟩

/-! ### infer_dimensions / normalize_glyph lemmas -/

lemma tryPreferred_mul (n w h : Nat) (hp : tryPreferred n = some (w, h)) :
    w * h = n := by
  unfold tryPreferred at hp
  cases hfind : preferredHeights.find?
      (fun h => n % h = 0 && 1 ≤ n / h && n / h ≤ 64) with
  | none => rw [hfind] at hp; simp at hp
  | some h0 =>
    rw [hfind] at hp
    have hp' : (n / h0, h0) = (w, h) := by simpa using hp
    have hpred := List.find?_some hfind
    simp only [Bool.and_eq_true, decide_eq_true_eq] at hpred
    obtain ⟨⟨hmod, _⟩, _⟩ := hpred
    obtain ⟨hw, hh⟩ := Prod.mk.inj hp'
    rw [← hw, ← hh]
    exact Nat.div_mul_cancel (Nat.dvd_of_mod_eq_zero hmod)

lemma fallbackStep_keeps_some (n : Nat) (st : Option ((Nat × Nat) × Nat)) (h : Nat)
    (hs : st ≠ none) : fallbackStep n st h ≠ none := by
  cases st with
  | none => exact absurd rfl hs
  | some p =>
    obtain ⟨q, bs⟩ := p
    by_cases hmod : n % h ≠ 0
    · simp [fallbackStep, hmod]
    · by_cases hsc : ((n / h : Int) - h).natAbs < bs
      · simp [fallbackStep, hmod, hsc]
      · simp [fallbackStep, hmod, hsc]

lemma fallbackFold_keeps_some (n : Nat) (L : List Nat) :
    ∀ (st : Option ((Nat × Nat) × Nat)), st ≠ none →
    L.foldl (fallbackStep n) st ≠ none := by
  induction L with
  | nil => intro st hs; exact hs
  | cons h t ih =>
    intro st hs
    exact ih _ (fallbackStep_keeps_some n st h hs)

lemma fallbackStep_mul (n : Nat) (st : Option ((Nat × Nat) × Nat)) (h : Nat)
    (hs : ∀ w hh s, st = some ((w, hh), s) → w * hh = n) :
    ∀ w hh s, fallbackStep n st h = some ((w, hh), s) → w * hh = n := by
  intro w hh s hstep
  unfold fallbackStep at hstep
  by_cases hmod : n % h ≠ 0
  · rw [if_pos hmod] at hstep
    exact hs w hh s hstep
  · rw [if_neg hmod] at hstep
    push_neg at hmod
    have hdvd : (n / h) * h = n := Nat.div_mul_cancel (Nat.dvd_of_mod_eq_zero hmod)
    cases st with
    | none =>
      simp only [Option.some.injEq, Prod.mk.injEq] at hstep
      rw [← hstep.1.1, ← hstep.1.2]
      exact hdvd
    | some p =>
      obtain ⟨⟨w0, h0⟩, bs⟩ := p
      dsimp only at hstep
      split at hstep
      · simp only [Option.some.injEq, Prod.mk.injEq] at hstep
        rw [← hstep.1.1, ← hstep.1.2]
        exact hdvd
      · simp only [Option.some.injEq, Prod.mk.injEq] at hstep
        exact hs w hh bs (by rw [hstep.1.1, hstep.1.2, hstep.2])

lemma fallbackFold_mul (n : Nat) (L : List Nat) :
    ∀ (st : Option ((Nat × Nat) × Nat)),
    (∀ w hh s, st = some ((w, hh), s) → w * hh = n) →
    ∀ w hh s, L.foldl (fallbackStep n) st = some ((w, hh), s) → w * hh = n := by
  induction L with
  | nil => intro st hs; exact hs
  | cons h t ih =>
    intro st hs
    exact ih _ (fallbackStep_mul n st h hs)

lemma normalize_glyph_eq (values : List Nat) :
    normalize_glyph values =
      match reshape_rows values (infer_dimensions values).1
          (infer_dimensions values).2 with
      | Except.error e => Except.error e
      | Except.ok rows =>
        Except.ok
          { width := (infer_dimensions values).1,
            height := (infer_dimensions values).2,
            data := values, rows := rows,
            active_pixels := (values.filter (fun v => v ≠ 0)).length,
            bbox := compute_bbox rows } := rfl

lemma reshape_rows_cons (v : Nat) (vs : List Nat) (w h : Nat) :
    reshape_rows (v :: vs) (some w) (some h) =
      if w * h ≠ (v :: vs).length then Except.error "Dimension mismatch"
      else Except.ok ((List.range h).map
        (fun r => (((v :: vs).drop (r * w)).take w))) := rfl

lemma infer_dimensions_total (values : List Nat) (hne : values ≠ []) :
    ∃ w h, infer_dimensions values = (some w, some h) ∧ w * h = values.length := by
  have hn : values.length ≠ 0 := by
    simpa [List.length_eq_zero] using hne
  unfold infer_dimensions
  rw [if_neg hn]
  cases hp : tryPreferred values.length with
  | some wh =>
    exact ⟨wh.1, wh.2, rfl, tryPreferred_mul _ _ _ (by rw [hp])⟩
  | none =>
    have h1 : List.range' 1 values.length = 1 :: List.range' 2 (values.length - 1) := by
      obtain ⟨k, hk⟩ : ∃ k, values.length = k + 1 := ⟨values.length - 1, by omega⟩
      rw [hk, List.range'_succ]
      simp
    have hbase : fallbackStep values.length none 1 ≠ none := by
      unfold fallbackStep
      rw [if_neg (by simp [Nat.mod_one])]
      simp
    have hsome : (List.range' 1 values.length).foldl
        (fallbackStep values.length) none ≠ none := by
      rw [h1, List.foldl_cons]
      exact fallbackFold_keeps_some _ _ _ hbase
    cases hf : (List.range' 1 values.length).foldl (fallbackStep values.length) none with
    | none => exact absurd hf hsome
    | some p =>
      obtain ⟨⟨w, h⟩, s⟩ := p
      refine ⟨w, h, rfl, ?_⟩
      exact fallbackFold_mul _ _ none (by intro _ _ _ hc; cases hc) w h s hf

/-- C10: glyph-data export normalization is total.  For every non-empty
value list infer_dimensions yields dimensions whose product is the length,
so reshape_rows cannot raise its dimension-mismatch error and
normalize_glyph always succeeds; the empty list gets (none, none)
dimensions and an empty row list. -/
theorem c10_normalize_total :
    ∀ values : List Nat,
    (values ≠ [] →
      ∃ w h, infer_dimensions values = (some w, some h) ∧ w * h = values.length) ∧
    (values = [] → infer_dimensions values = (none, none)) ∧
    (∃ rows, reshape_rows values (infer_dimensions values).1
        (infer_dimensions values).2 = Except.ok rows ∧ (values = [] → rows = [])) ∧
    (∃ e, normalize_glyph values = Except.ok e) := by
  intro values
  by_cases hne : values = []
  · subst hne
    exact ⟨fun h => absurd rfl h, fun _ => rfl, ⟨[], rfl, fun _ => rfl⟩,
      ⟨{ width := none, height := none, data := [], rows := [],
         active_pixels := 0, bbox := none }, rfl⟩⟩
  · obtain ⟨v, vs, hv⟩ := List.exists_cons_of_ne_nil hne
    subst hv
    obtain ⟨w, h, hwh, hmul⟩ := infer_dimensions_total (v :: vs) hne
    have hresh : reshape_rows (v :: vs) (infer_dimensions (v :: vs)).1
        (infer_dimensions (v :: vs)).2 =
        Except.ok ((List.range h).map
          (fun r => (((v :: vs).drop (r * w)).take w))) := by
      rw [hwh]
      exact (reshape_rows_cons v vs w h).trans (if_neg (fun hc => hc hmul))
    refine ⟨fun _ => ⟨w, h, hwh, hmul⟩, fun he => absurd he hne,
      ⟨_, hresh, fun he => absurd he hne⟩, ?_⟩
    refine ⟨{ width := (infer_dimensions (v :: vs)).1,
              height := (infer_dimensions (v :: vs)).2,
              data := v :: vs,
              rows := (List.range h).map (fun r => (((v :: vs).drop (r * w)).take w)),
              active_pixels := ((v :: vs).filter (fun x => x ≠ 0)).length,
              bbox := compute_bbox ((List.range h).map
                (fun r => (((v :: vs).drop (r * w)).take w))) }, ?_⟩
    rw [normalize_glyph_eq, hresh]

/-- Witness for c10_normalize_total at the concrete value list [1, 0, 1]. -/
theorem c10_normalize_total_witness :
    (∃ w h, infer_dimensions [1, 0, 1] = (some w, some h) ∧ w * h = 3) ∧
    (∃ e, normalize_glyph [1, 0, 1] = Except.ok e) :=
  ⟨(c10_normalize_total [1, 0, 1]).1 (by decide),
   (c10_normalize_total [1, 0, 1]).2.2.2⟩

/-! ### build_font state lemmas -/

lemma onesEnum_nil : onesEnum [] = 0 := rfl

lemma onesEnum_cons (i bit : Nat) (rest : List (Nat × Nat)) :
    onesEnum ((i, bit) :: rest) =
      (if bit = 1 then 1 else 0) + onesEnum rest := by
  by_cases h : bit = 1
  · simp [onesEnum, List.countP_cons, h]
    omega
  · simp [onesEnum, List.countP_cons, h]

lemma onesEnum_cons_one (i : Nat) (rest : List (Nat × Nat)) :
    onesEnum ((i, 1) :: rest) = 1 + onesEnum rest := by
  rw [onesEnum_cons]
  norm_num

lemma onesEnum_cons_ne (i bit : Nat) (rest : List (Nat × Nat)) (h : bit ≠ 1) :
    onesEnum ((i, bit) :: rest) = onesEnum rest := by
  rw [onesEnum_cons, if_neg h, Nat.zero_add]

lemma onesEnum_enumFrom (l : List Nat) :
    ∀ k : Nat, onesEnum (l.enumFrom k) = countOnes l := by
  induction l with
  | nil => intro k; rfl
  | cons b t ih =>
    intro k
    rw [List.enumFrom_cons, onesEnum_cons, ih (k + 1)]
    by_cases h : b = 1
    · simp [countOnes, h]
      omega
    · simp [countOnes, h]

lemma onesEnum_enum (l : List Nat) : onesEnum l.enum = countOnes l :=
  onesEnum_enumFrom l 0

lemma countOnes_le_sum (p : List Nat) : countOnes p ≤ p.sum := by
  induction p with
  | nil => simp [countOnes]
  | cons b t ih =>
    unfold countOnes at ih ⊢
    rw [List.sum_cons]
    by_cases h : b = 1
    · rw [List.filter_cons_of_pos (by simp [h])]
      rw [List.length_cons]
      omega
    · rw [List.filter_cons_of_neg (by simp [h])]
      omega

lemma perGlyphAssigned_le_sum (e : Nat × List Nat) :
    perGlyphAssigned e ≤ e.2.sum := by
  unfold perGlyphAssigned
  split
  · exact Nat.zero_le _
  · split
    · exact Nat.zero_le _
    · exact countOnes_le_sum e.2

lemma range'_glue (m : Nat) :
    ∀ (s n : Nat), List.range' s m ++ List.range' (s + m) n = List.range' s (m + n) := by
  induction m with
  | zero => intro s n; simp
  | succ k ih =>
    intro s n
    rw [List.range'_succ]
    have h2 : s + (k + 1) = (s + 1) + k := by omega
    rw [List.cons_append, h2, ih (s + 1) n, ← List.range'_succ]
    congr 1
    omega

lemma range'_chain_lt (n : Nat) :
    ∀ s : Nat, (List.range' s n).Chain' (· < ·) := by
  induction n with
  | zero => intro s; exact List.chain'_nil
  | succ k ih =>
    intro s
    rw [List.range'_succ]
    cases k with
    | zero => simp
    | succ k2 =>
      rw [List.range'_succ, List.chain'_cons]
      exact ⟨by omega, by rw [← List.range'_succ]; exact ih (s + 1)⟩

lemma pixLoop_cons_off (m : Metrics) (jmax : Nat) (gname : String) (aw cols : Nat)
    (st : BState) (br : List Rect) (ly : List (String × Nat))
    (i bit : Nat) (rest : List (Nat × Nat)) (hbit : bit ≠ 1) :
    pixLoop m jmax gname aw cols st br ly ((i, bit) :: rest) =
      pixLoop m jmax gname aw cols st br ly rest := by
  simp [pixLoop, hbit]

lemma pixLoop_cons_on (m : Metrics) (jmax : Nat) (gname : String) (aw cols : Nat)
    (st : BState) (br : List Rect) (ly : List (String × Nat))
    (i : Nat) (rest : List (Nat × Nat)) :
    pixLoop m jmax gname aw cols st br ly ((i, 1) :: rest) =
      pixLoop m jmax gname aw cols (pixStep m jmax gname aw cols st i)
        (br ++ [pixelRect m (i / cols) (i % cols) (jitterDraw m jmax st.rng).1])
        (ly ++ [(layerName gname st.nextIdx, st.nextIdx)]) rest := by
  simp [pixLoop]

lemma pixStep_fields (m : Metrics) (jmax : Nat) (gname : String) (aw cols : Nat)
    (st : BState) (i : Nat) :
    (pixStep m jmax gname aw cols st i).paletteSize = st.paletteSize ∧
    (pixStep m jmax gname aw cols st i).colorLayers = st.colorLayers ∧
    (pixStep m jmax gname aw cols st i).glyphs =
      st.glyphs ++ [(layerName gname st.nextIdx,
        [pixelRect m (i / cols) (i % cols) (jitterDraw m jmax st.rng).1])] ∧
    (pixStep m jmax gname aw cols st i).advanceWidths =
      st.advanceWidths ++ [(layerName gname st.nextIdx, aw)] ∧
    (pixStep m jmax gname aw cols st i).lsbs =
      st.lsbs ++ [(layerName gname st.nextIdx, 0)] ∧
    (pixStep m jmax gname aw cols st i).glyphOrder =
      st.glyphOrder ++ [layerName gname st.nextIdx] :=
  ⟨rfl, rfl, rfl, rfl, rfl, rfl⟩

lemma pixStep_nextIdx (m : Metrics) (jmax : Nat) (gname : String) (aw cols : Nat)
    (st : BState) (i : Nat) (h : st.nextIdx + 1 < st.paletteSize) :
    (pixStep m jmax gname aw cols st i).nextIdx = st.nextIdx + 1 := by
  unfold pixStep
  simp only
  rw [if_neg (by omega)]

lemma pixLoop_state (m : Metrics) (jmax : Nat) (gname : String) (aw cols : Nat) :
    ∀ (pl : List (Nat × Nat)) (st : BState) (br : List Rect)
      (ly : List (String × Nat)),
    (pixLoop m jmax gname aw cols st br ly pl).1.colorLayers = st.colorLayers ∧
    (pixLoop m jmax gname aw cols st br ly pl).1.paletteSize = st.paletteSize ∧
    (∃ t, (pixLoop m jmax gname aw cols st br ly pl).1.glyphs = st.glyphs ++ t) ∧
    (∃ t, (pixLoop m jmax gname aw cols st br ly pl).1.advanceWidths =
      st.advanceWidths ++ t) ∧
    (∃ t, (pixLoop m jmax gname aw cols st br ly pl).1.lsbs = st.lsbs ++ t) ∧
    (∃ t, (pixLoop m jmax gname aw cols st br ly pl).1.glyphOrder =
      st.glyphOrder ++ t) := by
  intro pl
  induction pl with
  | nil =>
    intro st br ly
    exact ⟨rfl, rfl, ⟨[], by simp [pixLoop]⟩, ⟨[], by simp [pixLoop]⟩,
      ⟨[], by simp [pixLoop]⟩, ⟨[], by simp [pixLoop]⟩⟩
  | cons hd rest ih =>
    intro st br ly
    obtain ⟨i, bit⟩ := hd
    by_cases hbit : bit = 1
    · subst hbit
      rw [pixLoop_cons_on]
      have hstep := ih (pixStep m jmax gname aw cols st i)
        (br ++ [pixelRect m (i / cols) (i % cols) (jitterDraw m jmax st.rng).1])
        (ly ++ [(layerName gname st.nextIdx, st.nextIdx)])
      have hf := pixStep_fields m jmax gname aw cols st i
      refine ⟨hstep.1.trans hf.2.1, hstep.2.1.trans hf.1, ?_, ?_, ?_, ?_⟩
      · obtain ⟨t, ht⟩ := hstep.2.2.1
        exact ⟨_, by rw [ht, hf.2.2.1, List.append_assoc]⟩
      · obtain ⟨t, ht⟩ := hstep.2.2.2.1
        exact ⟨_, by rw [ht, hf.2.2.2.1, List.append_assoc]⟩
      · obtain ⟨t, ht⟩ := hstep.2.2.2.2.1
        exact ⟨_, by rw [ht, hf.2.2.2.2.1, List.append_assoc]⟩
      · obtain ⟨t, ht⟩ := hstep.2.2.2.2.2
        exact ⟨_, by rw [ht, hf.2.2.2.2.2, List.append_assoc]⟩
    · rw [pixLoop_cons_off m jmax gname aw cols st br ly i bit rest hbit]
      exact ih st br ly

lemma glyphFinish_fields (gname : String)
    (L : BState × List Rect × List (String × Nat)) :
    (glyphFinish gname L).colorLayers =
      L.1.colorLayers ++ (if L.2.2 = [] then [] else [(gname, L.2.2)]) ∧
    (glyphFinish gname L).paletteSize = L.1.paletteSize ∧
    (glyphFinish gname L).nextIdx = L.1.nextIdx ∧
    (glyphFinish gname L).glyphs = L.1.glyphs ++ [(gname, L.2.1)] ∧
    (glyphFinish gname L).advanceWidths = L.1.advanceWidths ∧
    (glyphFinish gname L).lsbs = L.1.lsbs ∧
    (glyphFinish gname L).glyphOrder = L.1.glyphOrder := by
  unfold glyphFinish
  by_cases h : L.2.2 = []
  · rw [if_pos h, if_pos h]
    exact ⟨by simp, rfl, rfl, rfl, rfl, rfl, rfl⟩
  · rw [if_neg h, if_neg h]
    exact ⟨rfl, rfl, rfl, rfl, rfl, rfl, rfl⟩

lemma glyphStep_eq (m : Metrics) (jmax : Nat) (st : BState) (e : Nat × List Nat)
    (h32 : e.1 ≠ 32) :
    glyphStep m jmax st e =
      glyphFinish (glyphName e.1)
        (if 0 < colsOf e.2 then
          pixLoop m jmax (glyphName e.1) (awOf m (colsOf e.2)) (colsOf e.2)
            (glyphPrep m st e.1 e.2) [] [] e.2.enum
        else (glyphPrep m st e.1 e.2, [], [])) := by
  simp [glyphStep, h32]

lemma glyphStep_state (m : Metrics) (jmax : Nat) (st : BState)
    (e : Nat × List Nat) :
    (∃ t, (glyphStep m jmax st e).colorLayers = st.colorLayers ++ t) ∧
    (glyphStep m jmax st e).paletteSize = st.paletteSize ∧
    (∃ t, (glyphStep m jmax st e).glyphs = st.glyphs ++ t) ∧
    (∃ t, (glyphStep m jmax st e).advanceWidths = st.advanceWidths ++ t) ∧
    (∃ t, (glyphStep m jmax st e).lsbs = st.lsbs ++ t) := by
  by_cases h32 : e.1 = 32
  · rw [show glyphStep m jmax st e = st from by simp [glyphStep, h32]]
    exact ⟨⟨[], by simp⟩, rfl, ⟨[], by simp⟩, ⟨[], by simp⟩, ⟨[], by simp⟩⟩
  · rw [glyphStep_eq m jmax st e h32]
    set L := (if 0 < colsOf e.2 then
      pixLoop m jmax (glyphName e.1) (awOf m (colsOf e.2)) (colsOf e.2)
        (glyphPrep m st e.1 e.2) [] [] e.2.enum
      else (glyphPrep m st e.1 e.2, [], [])) with hL
    have hfin := glyphFinish_fields (glyphName e.1) L
    have hmid : L.1.colorLayers = st.colorLayers ∧
        L.1.paletteSize = st.paletteSize ∧
        (∃ t, L.1.glyphs = st.glyphs ++ t) ∧
        (∃ t, L.1.advanceWidths = st.advanceWidths ++ t) ∧
        (∃ t, L.1.lsbs = st.lsbs ++ t) := by
      rw [hL]
      by_cases hc : 0 < colsOf e.2
      · rw [if_pos hc]
        have hpl := pixLoop_state m jmax (glyphName e.1) (awOf m (colsOf e.2))
          (colsOf e.2) e.2.enum (glyphPrep m st e.1 e.2) [] []
        refine ⟨hpl.1, hpl.2.1, ?_, ?_, ?_⟩
        · obtain ⟨t, ht⟩ := hpl.2.2.1
          exact ⟨t, by rw [ht]; rfl⟩
        · obtain ⟨t, ht⟩ := hpl.2.2.2.1
          exact ⟨_, by rw [ht, show (glyphPrep m st e.1 e.2).advanceWidths =
            st.advanceWidths ++ [(glyphName e.1, awOf m (colsOf e.2))] from rfl,
            List.append_assoc]⟩
        · obtain ⟨t, ht⟩ := hpl.2.2.2.2.1
          exact ⟨_, by rw [ht, show (glyphPrep m st e.1 e.2).lsbs =
            st.lsbs ++ [(glyphName e.1, 0)] from rfl, List.append_assoc]⟩
      · rw [if_neg hc]
        exact ⟨rfl, rfl, ⟨[], by simp [glyphPrep]⟩,
          ⟨[(glyphName e.1, awOf m (colsOf e.2))], rfl⟩,
          ⟨[(glyphName e.1, 0)], rfl⟩⟩
    refine ⟨?_, hfin.2.1.trans hmid.2.1, ?_, ?_, ?_⟩
    · exact ⟨_, by rw [hfin.1, hmid.1]⟩
    · obtain ⟨t, ht⟩ := hmid.2.2.1
      exact ⟨_, by rw [hfin.2.2.2.1, ht, List.append_assoc]⟩
    · obtain ⟨t, ht⟩ := hmid.2.2.2.1
      exact ⟨t, by rw [hfin.2.2.2.2.1, ht]⟩
    · obtain ⟨t, ht⟩ := hmid.2.2.2.2
      exact ⟨t, by rw [hfin.2.2.2.2.2.1, ht]⟩

lemma foldGlyphs_state (m : Metrics) (jmax : Nat) :
    ∀ (L : List (Nat × List Nat)) (st : BState),
    (∃ t, (L.foldl (glyphStep m jmax) st).colorLayers = st.colorLayers ++ t) ∧
    (L.foldl (glyphStep m jmax) st).paletteSize = st.paletteSize ∧
    (∃ t, (L.foldl (glyphStep m jmax) st).glyphs = st.glyphs ++ t) ∧
    (∃ t, (L.foldl (glyphStep m jmax) st).advanceWidths = st.advanceWidths ++ t) ∧
    (∃ t, (L.foldl (glyphStep m jmax) st).lsbs = st.lsbs ++ t) := by
  intro L
  induction L with
  | nil =>
    intro st
    exact ⟨⟨[], by simp⟩, rfl, ⟨[], by simp⟩, ⟨[], by simp⟩, ⟨[], by simp⟩⟩
  | cons e rest ih =>
    intro st
    rw [List.foldl_cons]
    have h1 := glyphStep_state m jmax st e
    have h2 := ih (glyphStep m jmax st e)
    refine ⟨?_, h2.2.1.trans h1.2.1, ?_, ?_, ?_⟩
    · obtain ⟨t1, ht1⟩ := h1.1
      obtain ⟨t2, ht2⟩ := h2.1
      exact ⟨_, by rw [ht2, ht1, List.append_assoc]⟩
    · obtain ⟨t1, ht1⟩ := h1.2.2.1
      obtain ⟨t2, ht2⟩ := h2.2.2.1
      exact ⟨_, by rw [ht2, ht1, List.append_assoc]⟩
    · obtain ⟨t1, ht1⟩ := h1.2.2.2.1
      obtain ⟨t2, ht2⟩ := h2.2.2.2.1
      exact ⟨_, by rw [ht2, ht1, List.append_assoc]⟩
    · obtain ⟨t1, ht1⟩ := h1.2.2.2.2
      obtain ⟨t2, ht2⟩ := h2.2.2.2.2
      exact ⟨_, by rw [ht2, ht1, List.append_assoc]⟩

lemma glyphStep_adv_mem (m : Metrics) (jmax : Nat) (st : BState)
    (cp : Nat) (pix : List Nat) (h32 : cp ≠ 32) :
    (glyphName cp, awOf m (colsOf pix)) ∈
      (glyphStep m jmax st (cp, pix)).advanceWidths := by
  rw [glyphStep_eq m jmax st (cp, pix) h32]
  set L := (if 0 < colsOf (cp, pix).2 then
    pixLoop m jmax (glyphName (cp, pix).1) (awOf m (colsOf (cp, pix).2))
      (colsOf (cp, pix).2) (glyphPrep m st (cp, pix).1 (cp, pix).2) [] []
      (cp, pix).2.enum
    else (glyphPrep m st (cp, pix).1 (cp, pix).2, [], [])) with hL
  rw [(glyphFinish_fields (glyphName (cp, pix).1) L).2.2.2.2.1]
  have hbase : (glyphName cp, awOf m (colsOf pix)) ∈
      (glyphPrep m st cp pix).advanceWidths := by
    show (glyphName cp, awOf m (colsOf pix)) ∈
      st.advanceWidths ++ [(glyphName cp, awOf m (colsOf pix))]
    simp
  rw [hL]
  by_cases hc : 0 < colsOf (cp, pix).2
  · rw [if_pos hc]
    obtain ⟨t, ht⟩ := (pixLoop_state m jmax (glyphName (cp, pix).1)
      (awOf m (colsOf (cp, pix).2)) (colsOf (cp, pix).2) (cp, pix).2.enum
      (glyphPrep m st (cp, pix).1 (cp, pix).2) [] []).2.2.2.1
    rw [ht]
    exact List.mem_append_left _ hbase
  · rw [if_neg hc]
    exact hbase

lemma fold_adv_mem (m : Metrics) (jmax : Nat) :
    ∀ (L : List (Nat × List Nat)) (st : BState) (cp : Nat) (pix : List Nat),
    (cp, pix) ∈ L → cp ≠ 32 →
    (glyphName cp, awOf m (colsOf pix)) ∈
      (L.foldl (glyphStep m jmax) st).advanceWidths := by
  intro L
  induction L with
  | nil => intro st cp pix hm; exact absurd hm (List.not_mem_nil _)
  | cons e rest ih =>
    intro st cp pix hm h32
    rw [List.foldl_cons]
    rcases List.mem_cons.mp hm with he | hr
    · subst he
      obtain ⟨t, ht⟩ := (foldGlyphs_state m jmax rest
        (glyphStep m jmax st (cp, pix))).2.2.2.1
      rw [ht]
      exact List.mem_append_left _ (glyphStep_adv_mem m jmax st cp pix h32)
    · exact ih (glyphStep m jmax st e) cp pix hr h32

/-- C1: the code records left_side_bearing 0 for every glyph, but the
computed outline bounding box of a drawn glyph has xMin = (left_pad + min
column) * cell > 0: at the one-pixel glyph 0x41 the recorded bearing is 0
while the outline's bounding-box minimum X is 90, and the claimed invariant
`left_side_bearing == outline.bbox.xMin` fails (the layer glyph does reuse
the base advance width, but its bearing is also the constant 0, not its
outline's xMin). -/
theorem c1_lsb_zero_not_bbox_xmin :
    ("uni0041", (0 : Int)) ∈
      (buildFont defaultMetrics 0 cStream 7 [(65, pix9)]).leftSideBearings ∧
    ("uni0041", [({ x0 := 90, y0 := 720, x1 := 180, y1 := 810 } : Rect)]) ∈
      (buildFont defaultMetrics 0 cStream 7 [(65, pix9)]).glyphs ∧
    ("uni0041.p0", (0 : Int)) ∈
      (buildFont defaultMetrics 0 cStream 7 [(65, pix9)]).leftSideBearings ∧
    ("uni0041.p0", [({ x0 := 90, y0 := 720, x1 := 180, y1 := 810 } : Rect)]) ∈
      (buildFont defaultMetrics 0 cStream 7 [(65, pix9)]).glyphs ∧
    ("uni0041", 270) ∈
      (buildFont defaultMetrics 0 cStream 7 [(65, pix9)]).advanceWidths ∧
    ("uni0041.p0", 270) ∈
      (buildFont defaultMetrics 0 cStream 7 [(65, pix9)]).advanceWidths ∧
    bboxXMin [({ x0 := 90, y0 := 720, x1 := 180, y1 := 810 } : Rect)] = 90 ∧
    (0 : Int) ≠ 90 :=
  ⟨by decide, by decide, by decide, by decide, by decide, by decide, rfl, by decide⟩

/-- C2 counterexample: the palette index is not a pure function of (seed,
codepoint, pixel index).  The tables tblA = {0x40, 0x41} and
tblB = {0x41, 0x42} are built with the same seed stream and yield the same
palette size, yet the single "on" pixel (index 0) of glyph 0x41 receives
palette index 1 in the first build and 0 in the second: the index is the
running pixel counter, dependent on which glyphs precede in enumeration
order, not a hash reduced modulo the palette size. -/
theorem c2_hash_assignment_refuted :
    layersOf (buildFont defaultMetrics 0 cStream 7 tblA) "uni0041" =
      [("uni0041.p1", 1)] ∧
    layersOf (buildFont defaultMetrics 0 cStream 7 tblB) "uni0041" =
      [("uni0041.p0", 0)] ∧
    (buildFont defaultMetrics 0 cStream 7 tblA).palette.length =
      (buildFont defaultMetrics 0 cStream 7 tblB).palette.length ∧
    (1 : Nat) ≠ 0 :=
  ⟨rfl, rfl, rfl, by decide⟩

/-- C3 counterexample: the space glyph's compiled advance width is
2 * cell (left and right padding only, nothing beyond), not the claimed
(1 + 1 + 1) * cell. -/
theorem c3_space_advance_is_two_cells :
    (buildFont defaultMetrics 0 cStream 7 []).advanceWidths.find?
      (fun e => e.1 = "space") = some ("space", 2 * defaultMetrics.cell) ∧
    2 * defaultMetrics.cell ≠ (1 + 1 + 1) * defaultMetrics.cell :=
  ⟨rfl, by decide⟩

/-- C3 (amended): every accepted non-space glyph's compiled advance width is
(left_pad + cols + right_pad + letterspacing) * cell whenever that product
is positive (with the fallback 2 * cell when it is 0), where cols = 0 for an
empty pixel grid; the space glyph is compiled with advance width exactly
2 * cell — its two padding cells and no cell beyond — and an empty
outline. -/
theorem c3_advance_width_formula :
    ∀ (m : Metrics) (jmax : Nat) (stream : Nat → Nat) (month : Nat)
      (chars : List (Nat × List Nat)) (cp : Nat) (pix : List Nat),
    (cp, pix) ∈ chars → validPixels pix = true → cp ≠ 32 →
    (glyphName cp, awOf m (colsOf pix)) ∈
      (buildFont m jmax stream month chars).advanceWidths ∧
    ("space", 2 * m.cell) ∈ (buildFont m jmax stream month chars).advanceWidths ∧
    ("space", ([] : List Rect)) ∈ (buildFont m jmax stream month chars).glyphs ∧
    (0 < (m.left_pad_cells + colsOf pix + m.right_pad_cells +
        m.letterspacing_cells) * m.cell →
      awOf m (colsOf pix) =
        (m.left_pad_cells + colsOf pix + m.right_pad_cells +
          m.letterspacing_cells) * m.cell) := by
  intro m jmax stream month chars cp pix hmem hval h32
  have hmf : (cp, pix) ∈ filterChars chars :=
    List.mem_filter.mpr ⟨hmem, hval⟩
  have hms : (cp, pix) ∈ sortedFiltered chars :=
    (List.perm_insertionSort _ _).mem_iff.mpr hmf
  refine ⟨?_, ?_, ?_, ?_⟩
  · exact fold_adv_mem m jmax (sortedFiltered chars)
      (buildState0 m stream month chars) cp pix hms h32
  · obtain ⟨t, ht⟩ := (foldGlyphs_state m jmax (sortedFiltered chars)
      (buildState0 m stream month chars)).2.2.2.1
    show _ ∈ (buildFold m jmax stream month chars).advanceWidths
    rw [buildFold, ht]
    exact List.mem_append_left _ (by simp [buildState0])
  · obtain ⟨t, ht⟩ := (foldGlyphs_state m jmax (sortedFiltered chars)
      (buildState0 m stream month chars)).2.2.1
    show _ ∈ (buildFold m jmax stream month chars).glyphs
    rw [buildFold, ht]
    exact List.mem_append_left _ (by simp [buildState0])
  · intro hpos
    unfold awOf
    rw [if_neg (by omega)]

/-- Witness for c3_advance_width_formula at the one-pixel glyph 0x41. -/
theorem c3_advance_width_formula_witness :
    ("uni0041", 270) ∈
      (buildFont defaultMetrics 0 cStream 7 [(65, pix9)]).advanceWidths ∧
    ("space", 180) ∈
      (buildFont defaultMetrics 0 cStream 7 [(65, pix9)]).advanceWidths ∧
    awOf defaultMetrics (colsOf pix9) = (1 + 1 + 1 + 0) * 90 := by
  have h := c3_advance_width_formula defaultMetrics 0 cStream 7 [(65, pix9)]
    65 pix9 (by decide) (by decide) (by decide)
  exact ⟨h.1, h.2.1, h.2.2.2 (by decide)⟩

/-- C4: a glyph whose pixel sequence has nonzero length not divisible by
ROWS does not fail the build: the whole build result on a table containing
such an entry is identical to the build on the table without it, so the bad
entry contributes no outline, no layer, no glyph-order entry and no
character-map entry, and every other glyph of the table is compiled
unchanged (the source notes the skip; the warning itself is I/O in the
sibling parser and outside the embedded compiler state). -/
theorem c4_invalid_glyph_skipped :
    ∀ (m : Metrics) (jmax : Nat) (stream : Nat → Nat) (month : Nat)
      (l1 l2 : List (Nat × List Nat)) (cp : Nat) (pix : List Nat),
    pix ≠ [] → pix.length % ROWS ≠ 0 →
    buildFont m jmax stream month (l1 ++ (cp, pix) :: l2) =
      buildFont m jmax stream month (l1 ++ l2) := by
  intro m jmax stream month l1 l2 cp pix hne hmod
  have hv : validPixels pix = false := by
    unfold validPixels
    simp only [Bool.or_eq_false_iff, decide_eq_false_iff_not]
    exact ⟨by simpa [List.length_eq_zero] using hne, hmod⟩
  have hf : filterChars (l1 ++ (cp, pix) :: l2) = filterChars (l1 ++ l2) := by
    unfold filterChars
    rw [List.filter_append, List.filter_append,
      List.filter_cons_of_neg (by simp [hv])]
  unfold buildFont buildFold buildState0 sortedFiltered totalOnes
  rw [hf]

/-- Witness for c4_invalid_glyph_skipped: a length-10 entry under ROWS = 9
is dropped and the build equals the build without it. -/
theorem c4_invalid_glyph_skipped_witness :
    buildFont defaultMetrics 0 cStream 7 [(65, pix9), (66, badPix)] =
      buildFont defaultMetrics 0 cStream 7 [(65, pix9)] :=
  c4_invalid_glyph_skipped defaultMetrics 0 cStream 7 [(65, pix9)] [] 66 badPix
    (by decide) (by decide)

/-- C5 counterexample: jitter does not leave y0 fixed.  At row 0, col 0 with
the jitter draw j = 1 (extra = 4 design units) the emitted rectangle has
y0 = 716, different from the claimed jitter-independent
y0 = (bottom_pad + (R - 1 - row)) * cell = 720, which is the y0 only of the
unjittered rectangle: the jitter-derived extra moves the y0 corner. -/
theorem c5_jitter_moves_y0 :
    (pixelRect defaultMetrics 0 0 (jitterExtra defaultMetrics.cell 1)).y0 = 716 ∧
    (pixelRect defaultMetrics 0 0 0).y0 = 720 ∧
    ((716 : Int) ≠ ((0 : Int) + ((ROWS : Int) - 1 - 0)) * defaultMetrics.cell) :=
  ⟨rfl, rfl, by decide⟩

/-- C5 (amended): for the pixel at (row, col) with jitter-derived extra, the
emitted rectangle has x0 = (left_pad + col) * cell and y1 = (R - row) * cell
both jitter-independent, x1 = x0 + cell + extra, and y0 = y1 - (cell +
extra): jitter enlarges the rectangle rightward at x1 and downward at y0;
without jitter y0 = (R - 1 - row) * cell (there is no bottom pad). -/
theorem c5_pixel_rect_coords :
    ∀ (m : Metrics) (row col extra : Nat),
    (pixelRect m row col extra).x0 = ((m.left_pad_cells : Int) + col) * m.cell ∧
    (pixelRect m row col extra).y1 = ((ROWS : Int) - row) * m.cell ∧
    (pixelRect m row col extra).x1 =
      (pixelRect m row col extra).x0 + m.cell + extra ∧
    (pixelRect m row col extra).y0 =
      (pixelRect m row col extra).y1 - ((m.cell : Int) + extra) ∧
    (pixelRect m row col extra).x0 = (pixelRect m row col 0).x0 ∧
    (pixelRect m row col extra).y1 = (pixelRect m row col 0).y1 ∧
    (extra = 0 →
      (pixelRect m row col extra).y0 = ((ROWS : Int) - 1 - row) * m.cell) := by
  intro m row col extra
  refine ⟨rfl, rfl, by simp [pixelRect]; ring, rfl, rfl, rfl, ?_⟩
  intro he
  subst he
  show ((ROWS : Int) - row) * m.cell - ((m.cell : Int) + 0) =
    ((ROWS : Int) - 1 - row) * m.cell
  ring

/-- Witness for c5_pixel_rect_coords at row 0, col 0, no jitter. -/
theorem c5_pixel_rect_coords_witness :
    (pixelRect defaultMetrics 0 0 0).y0 =
      ((ROWS : Int) - 1 - 0) * defaultMetrics.cell :=
  (c5_pixel_rect_coords defaultMetrics 0 0 0).2.2.2.2.2.2 rfl

lemma pixLoop_layers (m : Metrics) (jmax : Nat) (gname : String) (aw cols : Nat) :
    ∀ (pl : List (Nat × Nat)) (st : BState) (br : List Rect)
      (ly : List (String × Nat)),
    st.nextIdx + onesEnum pl < st.paletteSize →
    (pixLoop m jmax gname aw cols st br ly pl).1.nextIdx =
      st.nextIdx + onesEnum pl ∧
    (pixLoop m jmax gname aw cols st br ly pl).2.2.map Prod.snd =
      ly.map Prod.snd ++ List.range' st.nextIdx (onesEnum pl) ∧
    (∀ p ∈ (pixLoop m jmax gname aw cols st br ly pl).2.2,
      p ∈ ly ∨ ∃ rect,
        (p.1, [rect]) ∈ (pixLoop m jmax gname aw cols st br ly pl).1.glyphs) := by
  intro pl
  induction pl with
  | nil =>
    intro st br ly _
    refine ⟨by simp [pixLoop, onesEnum], by simp [pixLoop, onesEnum], ?_⟩
    intro p hp
    exact Or.inl hp
  | cons hd rest ih =>
    intro st br ly h
    obtain ⟨i, bit⟩ := hd
    by_cases hbit : bit = 1
    · subst hbit
      rw [pixLoop_cons_on]
      rw [onesEnum_cons_one] at h ⊢
      have hf := pixStep_fields m jmax gname aw cols st i
      have hnext : (pixStep m jmax gname aw cols st i).nextIdx = st.nextIdx + 1 :=
        pixStep_nextIdx m jmax gname aw cols st i (by omega)
      have hih := ih (pixStep m jmax gname aw cols st i)
        (br ++ [pixelRect m (i / cols) (i % cols) (jitterDraw m jmax st.rng).1])
        (ly ++ [(layerName gname st.nextIdx, st.nextIdx)])
        (by rw [hnext, hf.1]; omega)
      refine ⟨?_, ?_, ?_⟩
      · rw [hih.1, hnext]
        omega
      · rw [hih.2.1, hnext]
        rw [List.map_append, List.append_assoc]
        congr 1
        show [st.nextIdx] ++ List.range' (st.nextIdx + 1) (onesEnum rest) =
          List.range' st.nextIdx (1 + onesEnum rest)
        rw [Nat.add_comm 1 (onesEnum rest), List.range'_succ, List.singleton_append]
      · intro p hp
        rcases hih.2.2 p hp with hly | hrect
        · rcases List.mem_append.mp hly with hl | hr
          · exact Or.inl hl
          · rw [List.mem_singleton] at hr
            subst hr
            refine Or.inr ⟨pixelRect m (i / cols) (i % cols)
              (jitterDraw m jmax st.rng).1, ?_⟩
            have hmem1 : (layerName gname st.nextIdx,
                [pixelRect m (i / cols) (i % cols) (jitterDraw m jmax st.rng).1]) ∈
                (pixStep m jmax gname aw cols st i).glyphs := by
              rw [hf.2.2.1]
              simp
            obtain ⟨t, ht⟩ := (pixLoop_state m jmax gname aw cols rest
              (pixStep m jmax gname aw cols st i)
              (br ++ [pixelRect m (i / cols) (i % cols) (jitterDraw m jmax st.rng).1])
              (ly ++ [(layerName gname st.nextIdx, st.nextIdx)])).2.2.1
            rw [ht]
            exact List.mem_append_left _ hmem1
        · exact Or.inr hrect
    · rw [pixLoop_cons_off m jmax gname aw cols st br ly i bit rest hbit]
      rw [onesEnum_cons_ne i bit rest hbit] at h ⊢
      exact ih st br ly h

lemma glyphStep_layers (m : Metrics) (jmax : Nat) (st : BState)
    (cp : Nat) (pix : List Nat)
    (h : st.nextIdx + perGlyphAssigned (cp, pix) < st.paletteSize) :
    (glyphStep m jmax st (cp, pix)).nextIdx =
      st.nextIdx + perGlyphAssigned (cp, pix) ∧
    ((glyphStep m jmax st (cp, pix)).colorLayers = st.colorLayers ∧
        perGlyphAssigned (cp, pix) = 0 ∨
      ∃ ls, (glyphStep m jmax st (cp, pix)).colorLayers =
          st.colorLayers ++ [(glyphName cp, ls)] ∧
        ls.map Prod.snd = List.range' st.nextIdx (perGlyphAssigned (cp, pix)) ∧
        ls.length = countOnes pix ∧ 0 < colsOf pix ∧ cp ≠ 32 ∧
        (∀ p ∈ ls, ∃ rect,
          (p.1, [rect]) ∈ (glyphStep m jmax st (cp, pix)).glyphs)) := by
  by_cases h32 : cp = 32
  · have hskip : glyphStep m jmax st (cp, pix) = st := by simp [glyphStep, h32]
    have hz : perGlyphAssigned (cp, pix) = 0 := by simp [perGlyphAssigned, h32]
    rw [hskip, hz]
    exact ⟨rfl, Or.inl ⟨rfl, rfl⟩⟩
  · rw [glyphStep_eq m jmax st (cp, pix) h32]
    dsimp only
    by_cases hc : 0 < colsOf pix
    · have hz : perGlyphAssigned (cp, pix) = countOnes pix := by
        simp [perGlyphAssigned, h32]
        omega
      rw [if_pos hc]
      have hprep0 : (glyphPrep m st cp pix).nextIdx = st.nextIdx := rfl
      have hprep1 : (glyphPrep m st cp pix).paletteSize = st.paletteSize := rfl
      have hprep2 : (glyphPrep m st cp pix).colorLayers = st.colorLayers := rfl
      have hply := pixLoop_layers m jmax (glyphName cp) (awOf m (colsOf pix))
        (colsOf pix) pix.enum (glyphPrep m st cp pix) [] []
        (by rw [hprep0, hprep1, onesEnum_enum]; omega)
      rw [hprep0, onesEnum_enum] at hply
      have hcl0 := (pixLoop_state m jmax (glyphName cp) (awOf m (colsOf pix))
        (colsOf pix) pix.enum (glyphPrep m st cp pix) [] []).1
      set L := pixLoop m jmax (glyphName cp) (awOf m (colsOf pix))
        (colsOf pix) (glyphPrep m st cp pix) [] [] pix.enum with hL
      have hfin := glyphFinish_fields (glyphName cp) L
      have hLcl : L.1.colorLayers = st.colorLayers := hcl0.trans hprep2
      refine ⟨?_, ?_⟩
      · rw [hfin.2.2.1, hply.1, hz]
      · by_cases hnil : L.2.2 = []
        · left
          have hz0 : countOnes pix = 0 := by
            have hm := hply.2.1
            rw [hnil] at hm
            simp only [List.map_nil, List.nil_append] at hm
            have hm' := hm.symm
            rwa [List.range'_eq_nil] at hm'
          exact ⟨by rw [hfin.1, if_pos hnil, List.append_nil, hLcl],
            by rw [hz, hz0]⟩
        · right
          have hmap : L.2.2.map Prod.snd =
              List.range' st.nextIdx (countOnes pix) := by
            have hm := hply.2.1
            simpa using hm
          refine ⟨L.2.2, by rw [hfin.1, if_neg hnil, hLcl],
            by rw [hz]; exact hmap, ?_, hc, h32, ?_⟩
          · have hlm : (L.2.2.map Prod.snd).length = countOnes pix := by
              rw [hmap]
              simp
            simpa using hlm
          · intro p hp
            rcases hply.2.2 p hp with hly | ⟨rect, hrect⟩
            · exact absurd hly (List.not_mem_nil p)
            · refine ⟨rect, ?_⟩
              rw [hfin.2.2.2.1]
              exact List.mem_append_left _ hrect
    · have hz : perGlyphAssigned (cp, pix) = 0 := by
        simp [perGlyphAssigned, h32]
        omega
      rw [if_neg hc]
      have hfin := glyphFinish_fields (glyphName cp)
        (glyphPrep m st cp pix, [], [])
      refine ⟨?_, Or.inl ⟨?_, hz⟩⟩
      · rw [hfin.2.2.1, hz]
        rfl
      · rw [hfin.1]
        simp [glyphPrep]

lemma fold_layers (m : Metrics) (jmax : Nat) :
    ∀ (L : List (Nat × List Nat)) (st : BState),
    st.nextIdx + (L.map perGlyphAssigned).sum < st.paletteSize →
    (L.foldl (glyphStep m jmax) st).nextIdx =
      st.nextIdx + (L.map perGlyphAssigned).sum ∧
    ∃ newE, (L.foldl (glyphStep m jmax) st).colorLayers =
        st.colorLayers ++ newE ∧
      (newE.map (fun en => en.2.map Prod.snd)).flatten =
        List.range' st.nextIdx ((L.map perGlyphAssigned).sum) ∧
      (∀ en ∈ newE, ∃ cp pix, (cp, pix) ∈ L ∧ cp ≠ 32 ∧ en.1 = glyphName cp ∧
        en.2.length = countOnes pix ∧ 0 < colsOf pix ∧
        (en.2.map Prod.snd).Chain' (· < ·) ∧
        (∀ p ∈ en.2, ∃ rect,
          (p.1, [rect]) ∈ (L.foldl (glyphStep m jmax) st).glyphs)) := by
  intro L
  induction L with
  | nil =>
    intro st _
    refine ⟨by simp, [], by simp, by simp, ?_⟩
    intro en hen
    exact absurd hen (List.not_mem_nil en)
  | cons e rest ih =>
    intro st h
    obtain ⟨cp, pix⟩ := e
    rw [List.map_cons, List.sum_cons] at h ⊢
    have hstep := glyphStep_layers m jmax st cp pix (by omega)
    have hpal : (glyphStep m jmax st (cp, pix)).paletteSize = st.paletteSize :=
      (glyphStep_state m jmax st (cp, pix)).2.1
    have hih := ih (glyphStep m jmax st (cp, pix))
      (by rw [hstep.1, hpal]; omega)
    rw [List.foldl_cons]
    obtain ⟨newE, hcl, hflat, hmemE⟩ := hih.2
    constructor
    · rw [hih.1, hstep.1]
      omega
    · rcases hstep.2 with ⟨hsame, hzero⟩ | ⟨ls, hls, hmap, hlen, hcols, h32, hg⟩
      · refine ⟨newE, by rw [hcl, hsame], ?_, ?_⟩
        · rw [hflat, hstep.1, hzero]
          simp
        · intro en hen
          obtain ⟨cp2, pix2, hmem2, rest2⟩ := hmemE en hen
          exact ⟨cp2, pix2, List.mem_cons_of_mem _ hmem2, rest2⟩
      · refine ⟨(glyphName cp, ls) :: newE, ?_, ?_, ?_⟩
        · rw [hcl, hls, List.append_assoc, List.singleton_append]
        · rw [List.map_cons, List.flatten_cons, hflat, hstep.1]
          show ls.map Prod.snd ++
            List.range' (st.nextIdx + perGlyphAssigned (cp, pix))
              ((rest.map perGlyphAssigned).sum) = _
          rw [hmap, range'_glue]
        · intro en hen
          rcases List.mem_cons.mp hen with he | hr
          · subst he
            refine ⟨cp, pix, List.mem_cons_self _ _, h32, rfl, hlen, hcols, ?_, ?_⟩
            · rw [hmap]
              exact range'_chain_lt _ _
            · intro p hp
              obtain ⟨rect, hrect⟩ := hg p hp
              obtain ⟨t, ht⟩ := (foldGlyphs_state m jmax rest
                (glyphStep m jmax st (cp, pix))).2.2.1
              exact ⟨rect, by rw [ht]; exact List.mem_append_left _ hrect⟩
          · obtain ⟨cp2, pix2, hmem2, rest2⟩ := hmemE en hr
            exact ⟨cp2, pix2, List.mem_cons_of_mem _ hmem2, rest2⟩

lemma sorted_assigned_le (chars : List (Nat × List Nat)) :
    ((sortedFiltered chars).map perGlyphAssigned).sum = assignedCount chars ∧
    assignedCount chars ≤ totalOnes chars := by
  constructor
  · exact ((List.perm_insertionSort
      (fun a b : Nat × List Nat => a.1 ≤ b.1) (filterChars chars)).map
        perGlyphAssigned).sum_eq
  · exact List.sum_le_sum (fun e _ => perGlyphAssigned_le_sum e)

/-- C2 (amended): palette indices are assigned sequentially, not by hashing:
across the whole build, enumerating base glyphs in ascending codepoint
order (codepoint 32 skipped) and each glyph's "on" pixels in row-major
order, the k-th assigned pixel receives palette index k — the concatenation
of all per-glyph palette-index lists is exactly [0, 1, ..., n-1] for n the
number of assigned pixels.  (The source clamps the counter at
palette_size - 1, but palette_size = total_ones + 1 strictly exceeds the
number of assigned pixels, so the clamp never fires.)  The index therefore
depends on the enumeration position, not on any hash of (seed, codepoint,
pixel index); determinism for a fixed table is claim C6's theorem. -/
theorem c2_layer_indices_sequential :
    ∀ (m : Metrics) (jmax : Nat) (stream : Nat → Nat) (month : Nat)
      (chars : List (Nat × List Nat)),
    ((buildFont m jmax stream month chars).colorLayers.map
      (fun en => en.2.map Prod.snd)).flatten =
      List.range (assignedCount chars) := by
  intro m jmax stream month chars
  have hs := sorted_assigned_le chars
  have hfold := fold_layers m jmax (sortedFiltered chars)
    (buildState0 m stream month chars)
    (by
      show 0 + ((sortedFiltered chars).map perGlyphAssigned).sum <
        totalOnes chars + 1
      omega)
  obtain ⟨_, newE, hcl, hflat, _⟩ := hfold
  show ((buildFold m jmax stream month chars).colorLayers.map
    (fun en => en.2.map Prod.snd)).flatten = _
  rw [buildFold, hcl]
  show ((newE.map (fun en => en.2.map Prod.snd)).flatten) = _
  rw [hflat, hs.1, List.range_eq_range' (assignedCount chars)]
  rfl

/-- C8: for every base glyph entry of the color-layer table, the layer
palette indices are strictly ascending (hence no two layers of one base
glyph share a palette index), the entry belongs to an accepted non-space
glyph of the filtered table, the number of layers equals that glyph's count
of "on" pixels, and each layer glyph's outline is a single rectangle — so
the total number of "on" pixels covered by the glyph's layers (one per
layer) equals the glyph's active-pixel count. -/
theorem c8_layers_distinct_ascending_cover :
    ∀ (m : Metrics) (jmax : Nat) (stream : Nat → Nat) (month : Nat)
      (chars : List (Nat × List Nat)),
    ∀ en ∈ (buildFont m jmax stream month chars).colorLayers,
    (en.2.map Prod.snd).Chain' (· < ·) ∧
    (en.2.map Prod.snd).Nodup ∧
    ∃ cp pix, (cp, pix) ∈ filterChars chars ∧ cp ≠ 32 ∧ en.1 = glyphName cp ∧
      en.2.length = countOnes pix ∧
      (∀ p ∈ en.2, ∃ rect,
        (p.1, [rect]) ∈ (buildFont m jmax stream month chars).glyphs) := by
  intro m jmax stream month chars en hen
  have hs := sorted_assigned_le chars
  have hfold := fold_layers m jmax (sortedFiltered chars)
    (buildState0 m stream month chars)
    (by
      show 0 + ((sortedFiltered chars).map perGlyphAssigned).sum <
        totalOnes chars + 1
      omega)
  obtain ⟨_, newE, hcl, _, hmemE⟩ := hfold
  have hen' : en ∈ newE := by
    have hre : (buildFont m jmax stream month chars).colorLayers = newE := by
      show (buildFold m jmax stream month chars).colorLayers = newE
      rw [buildFold, hcl]
      rfl
    rwa [hre] at hen
  obtain ⟨cp, pix, hmem, h32, hname, hlen, _, hchain, hg⟩ := hmemE en hen'
  have hnodup : (en.2.map Prod.snd).Nodup :=
    (List.chain'_iff_pairwise.mp hchain).imp (fun hab => Nat.ne_of_lt hab)
  refine ⟨hchain, hnodup, cp, pix,
    (List.perm_insertionSort (fun a b : Nat × List Nat => a.1 ≤ b.1)
      (filterChars chars)).mem_iff.mp hmem, h32, hname, hlen, ?_⟩
  intro p hp
  exact hg p hp

/-- Witness for c8_layers_distinct_ascending_cover at the build of the
one-pixel glyph 0x41: its single color-layer entry has strictly ascending,
duplicate-free indices and a filtered source glyph with matching pixel
count. -/
theorem c8_layers_distinct_ascending_cover_witness :
    (([("uni0041.p0", (0 : Nat))] : List (String × Nat)).map Prod.snd).Chain'
      (· < ·) ∧
    ∃ cp pix, (cp, pix) ∈ filterChars [(65, pix9)] ∧ cp ≠ 32 ∧
      ("uni0041" : String) = glyphName cp ∧
      ([("uni0041.p0", (0 : Nat))] : List (String × Nat)).length =
        countOnes pix ∧
      (∀ p ∈ ([("uni0041.p0", (0 : Nat))] : List (String × Nat)), ∃ rect,
        (p.1, [rect]) ∈ (buildFont defaultMetrics 0 cStream 7
          [(65, pix9)]).glyphs) := by
  have hmem : ("uni0041", [("uni0041.p0", (0 : Nat))]) ∈
      (buildFont defaultMetrics 0 cStream 7 [(65, pix9)]).colorLayers := by
    decide
  have h := c8_layers_distinct_ascending_cover defaultMetrics 0 cStream 7
    [(65, pix9)] ("uni0041", [("uni0041.p0", (0 : Nat))]) hmem
  exact ⟨h.1, h.2.2⟩

end Defont
